import Mathlib

/-!
Verification of the camelphilter frame-filter pipeline.

The pixel buffer of an ImageData is embedded as a function from byte index to
byte value (the ImageData API guarantees data.length = 4 * width * height, so a
loop stepping over i < data.length by 4 visits exactly the pixels
p < width * height).  Floating-point arithmetic of the source is embedded as
exact rational arithmetic; calls to transcendental primitives (Math.exp,
Math.pow with fractional exponent) and to the non-seeded Math.random are kept
abstract as function parameters, so every theorem below holds for every
possible behaviour of those primitives.
-/

/-- One ImageData frame: dimensions plus the interleaved RGBA byte buffer,
represented as a function from byte index to stored value. -/
structure Frame where
  width : Nat
  height : Nat
  data : Nat → Nat

/-- Functional update of the byte buffer at one index. -/
def setAt (d : Nat → Nat) (i v : Nat) : Nat → Nat :=
  fun j => if j = i then v else d j

/-- Write the three colour channels of the pixel whose first byte sits at
index i, leaving the alpha byte at i+3 untouched (this is the only write
pattern the filters use: data[idx]=r; data[idx+1]=g; data[idx+2]=b). -/
def setRGB (d : Nat → Nat) (i r g b : Nat) : Nat → Nat :=
  setAt (setAt (setAt d i r) (i + 1) g) (i + 2) b

/-- A counted for-loop running its body at 0, 1, ..., n-1 in order. -/
def forLoop {σ : Type*} : Nat → (Nat → σ → σ) → σ → σ
  | 0, _, s => s
  | n + 1, f, s => f n (forLoop n f s)

/-- The helper clamp(value, min, max) = Math.max(min, Math.min(max, value)). -/
def jsClamp (v lo hi : ℚ) : ℚ := max lo (min hi v)

/-- The helper lerp(start, end, t) = start * (1 - t) + end * t. -/
def lerp (s e t : ℚ) : ℚ := s * (1 - t) + e * t

/-- Math.round: round half away from zero; on the nonnegative inputs this
program produces it is floor(q + 1/2). -/
def jsRound (q : ℚ) : ℤ := ⌊q + 1 / 2⌋

/-- Storing a computed value into a Uint8ClampedArray: clamp to [0, 255] and
round to the nearest integer.  The exact half-way products this program stores
(palette channel times 0.15) sit just below the representable IEEE double, so
halves resolve downward. -/
def toByte (q : ℚ) : Nat :=
  if q ≤ 0 then 0 else if 255 ≤ q then 255 else (Int.ceil (q - 1 / 2)).toNat

/-- Number of block rows or columns a for-loop stepping by bs visits:
the ceiling of n / bs. -/
def ceilDiv (n bs : Nat) : Nat := (n + bs - 1) / bs

/-- Byte index of channel ch of pixel (px, py): (py * width + px) * 4 + ch. -/
def bIdx (w px py ch : Nat) : Nat := (py * w + px) * 4 + ch

/-- Channel selector: component ch of an (r, g, b) triple. -/
def chSel (ch : Nat) (c : Nat × Nat × Nat) : Nat :=
  if ch = 0 then c.1 else if ch = 1 then c.2.1 else c.2.2

/-- Identity filter: returns the image unchanged. -/
def identity (img : Frame) : Frame := img

namespace V1

/-!
The earlier revision of the filter engine kept in the repository: the
averaging 8-bit block filter and the grayscale ASCII preparation filter.
-/

/-- Earlier 8-bit pixelation filter: 8 x 8 blocks, clipped to the frame, each
filled with the per-channel average (Math.round of sum / count) of its
in-bounds pixels. -/
def eightBit (img : Frame) : Frame :=
  let w := img.width
  let h := img.height
  let blockSize := 8
  { img with data :=
      forLoop (ceilDiv h blockSize) (fun ky d =>
        forLoop (ceilDiv w blockSize) (fun kx d =>
          let blockY := blockSize * ky
          let blockX := blockSize * kx
          let maxY := min (blockY + blockSize) h
          let maxX := min (blockX + blockSize) w
          let acc :=
            forLoop (maxY - blockY) (fun dy a =>
              forLoop (maxX - blockX) (fun dx a =>
                let idx := ((blockY + dy) * w + (blockX + dx)) * 4
                (a.1 + d idx, a.2.1 + d (idx + 1), a.2.2.1 + d (idx + 2),
                  a.2.2.2 + 1)) a)
              ((0, 0, 0, 0) : Nat × Nat × Nat × Nat)
          let avgR := (jsRound ((acc.1 : ℚ) / acc.2.2.2)).toNat
          let avgG := (jsRound ((acc.2.1 : ℚ) / acc.2.2.2)).toNat
          let avgB := (jsRound ((acc.2.2.1 : ℚ) / acc.2.2.2)).toNat
          forLoop (maxY - blockY) (fun dy d2 =>
            forLoop (maxX - blockX) (fun dx d3 =>
              setRGB d3 (((blockY + dy) * w + (blockX + dx)) * 4) avgR avgG avgB)
              d2) d) d) img.data }

/-- Earlier ASCII preparation filter: per pixel, write
Math.round(0.299 R + 0.587 G + 0.114 B) into all three colour channels. -/
def asciiGrayscale (img : Frame) : Frame :=
  { img with data :=
      forLoop (img.width * img.height) (fun p d =>
        let i := p * 4
        let gray := (jsRound (0.299 * (d i : ℚ) + 0.587 * (d (i + 1) : ℚ) +
          0.114 * (d (i + 2) : ℚ))).toNat
        setRGB d i gray gray gray) img.data }

end V1

/-- A 1 x 1 frame holding the single RGBA pixel (r, g, b, a). -/
def frame1x1 (r g b a : Nat) : Frame :=
  ⟨1, 1, fun j => [r, g, b, a].getD j 0⟩

/-- A 2 x 2 frame from its sixteen buffer bytes in row-major RGBA order. -/
def frame2x2 (bytes : List Nat) : Frame :=
  ⟨2, 2, fun j => bytes.getD j 0⟩

/-- Per-pixel Orange and Teal computation.  The Math.exp primitive inside the
logistic contrast curve and the two Math.random draws are abstracted: ex is
Math.exp, n1 the grain draw, n2 the chromatic-jitter draw. -/
def orangeTealPixel (ex : ℚ → ℚ) (n1 n2 : ℚ) (r g b : Nat) : ℚ × ℚ × ℚ :=
  let lum := (0.299 * (r : ℚ) + 0.587 * (g : ℚ) + 0.114 * (b : ℚ)) / 255
  let noise := (n1 - 0.5) * 0.08
  let gritLum0 := max 0 (min 1 (lum + noise))
  let gritLum := 1 / (1 + ex (-14 * (gritLum0 - 0.5)))
  let c :=
    if gritLum < 0.25 then
      let t := gritLum / 0.25
      (lerp 0 0 t, lerp 32 245 t, lerp 46 212 t)
    else if gritLum < 0.5 then
      let t := (gritLum - 0.25) / 0.25
      (lerp 0 255 t, lerp 245 84 t, lerp 212 0 t)
    else if gritLum < 0.75 then
      let t := (gritLum - 0.5) / 0.25
      (lerp 255 255 t, lerp 84 189 t, lerp 0 0 t)
    else
      let t := (gritLum - 0.75) / 0.25
      (lerp 255 255 t, lerp 189 255 t, lerp 0 220 t)
  if n2 > 0.95 then (c.1 * 1.05, c.2.1, c.2.2 * 0.95) else c

/-- Expressive Orange and Teal grade, current engine revision. -/
def orangeTeal (ex : ℚ → ℚ) (rnd1 rnd2 : Nat → ℚ) (img : Frame) : Frame :=
  { img with data :=
      forLoop (img.width * img.height) (fun p d =>
        let c := orangeTealPixel ex (rnd1 p) (rnd2 p)
          (d (p * 4)) (d (p * 4 + 1)) (d (p * 4 + 2))
        setRGB d (p * 4) (toByte c.1) (toByte c.2.1) (toByte c.2.2)) img.data }

/-- Distressed monochrome (White Noise), current engine revision: per row a
ghost scalar starts at 0 and smears horizontally; powg is Math.pow with the
fixed gamma 0.7, rnd the per-pixel Math.random draw. -/
def whiteNoise (powg : ℚ → ℚ) (rnd : Nat → ℚ) (img : Frame) : Frame :=
  let w := img.width
  let row := fun (y : Nat) (d0 : Nat → Nat) =>
    (forLoop w (fun x acc =>
      let d := acc.1
      let ghostTrail := acc.2
      let i := (y * w + x) * 4
      let lum0 := (0.299 * (d i : ℚ) + 0.587 * (d (i + 1) : ℚ) +
        0.114 * (d (i + 2) : ℚ)) / 255
      let lum := powg lum0
      let smearedLum := lum * (1 - 0.2) + ghostTrail * 0.2
      let jitter : ℚ := ((Nat.xor x y % 9 : Nat) : ℚ) / 9
      let grain := rnd (y * w + x) * 0.4 + jitter * 0.2
      let threshold := smearedLum + (grain - 0.3)
      let finalColor : Nat :=
        if threshold > 0.85 then 248
        else if threshold > 0.5 then 190
        else if threshold > 0.2 then 70
        else 25 + 15
      (setRGB d i finalColor finalColor finalColor, smearedLum)) (d0, (0 : ℚ))).1
  { img with data := forLoop img.height row img.data }

/-- The fixed quantization palette of the 8-bit filter. -/
def PALETTE : List (Nat × Nat × Nat) :=
  [(36, 0, 70), (60, 9, 108), (90, 24, 154), (123, 44, 191),
   (255, 109, 0), (255, 158, 0), (240, 240, 240)]

/-- Squared Euclidean RGB distance to a palette colour.  The source compares
Math.sqrt of this value with a strict less-than; square root is strictly
monotone, so comparing the squares selects the same colour. -/
def dist2 (r g b : Nat) (c : Nat × Nat × Nat) : ℤ :=
  ((r : ℤ) - c.1) ^ 2 + ((g : ℤ) - c.2.1) ^ 2 + ((b : ℤ) - c.2.2) ^ 2

/-- Nearest palette colour: fold starting from PALETTE[0] with an infinite
initial best distance (modelled by none), updating on strictly smaller
distance only, so ties keep the earliest palette entry. -/
def closestColor (r g b : Nat) : Nat × Nat × Nat :=
  (PALETTE.foldl (fun acc c =>
      match acc.2 with
      | none => (c, some (dist2 r g b c))
      | some m => if dist2 r g b c < m then (c, some (dist2 r g b c)) else acc)
    (((36 : Nat), (0 : Nat), (70 : Nat)), (none : Option ℤ))).1

/-- The LCD-seam darkening: every colour channel times 0.15, stored as a byte. -/
def darken (c : Nat × Nat × Nat) : Nat × Nat × Nat :=
  (toByte ((c.1 : ℚ) * 0.15), toByte ((c.2.1 : ℚ) * 0.15), toByte ((c.2.2 : ℚ) * 0.15))

/-- Fill one 10 x 10 block (clipped to the frame) with colour c, darkening the
one-pixel border along the block top and left edges. -/
def fillBlock (w h x y : Nat) (c : Nat × Nat × Nat) (d : Nat → Nat) : Nat → Nat :=
  forLoop 10 (fun bY dY =>
    forLoop 10 (fun bX dX =>
      let py := y + bY
      let px := x + bX
      if py < h ∧ px < w then
        let col := if bX < 1 ∨ bY < 1 then darken c else c
        setRGB dX ((py * w + px) * 4) col.1 col.2.1 col.2.2
      else dX) dY) d

/-- Colour chosen for the block at (x, y): nearest palette colour to the pixel
sampled at the block centre, clipped to frame bounds. -/
def blockColor (w h x y : Nat) (d : Nat → Nat) : Nat × Nat × Nat :=
  let centerX := min (x + 5) (w - 1)
  let centerY := min (y + 5) (h - 1)
  let centerIdx := (centerY * w + centerX) * 4
  closestColor (d centerIdx) (d (centerIdx + 1)) (d (centerIdx + 2))

/-- 8-bit pixelation filter with LCD grid effect, current engine revision. -/
def eightBit (img : Frame) : Frame :=
  { img with data :=
      forLoop (ceilDiv img.height 10) (fun ky d =>
        forLoop (ceilDiv img.width 10) (fun kx d =>
          fillBlock img.width img.height (10 * kx) (10 * ky)
            (blockColor img.width img.height (10 * kx) (10 * ky) d) d) d) img.data }

/-- The character atlas: five 8 x 8 bitmasks ordered Empty, Dot, Plus, Box,
Dense; 1 is ink, 0 is paper. -/
def CHARS : List (List Nat) :=
  [[0, 0, 0, 0, 0, 0, 0, 0, 0, 0, 0, 0, 0, 0, 0, 0, 0, 0, 0, 0, 0, 0, 0, 0,
    0, 0, 0, 0, 0, 0, 0, 0, 0, 0, 0, 0, 0, 0, 0, 0, 0, 0, 0, 0, 0, 0, 0, 0,
    0, 0, 0, 0, 0, 0, 0, 0, 0, 0, 0, 0, 0, 0, 0, 0],
   [0, 0, 0, 0, 0, 0, 0, 0, 0, 0, 0, 0, 0, 0, 0, 0, 0, 0, 0, 0, 0, 0, 0, 0,
    0, 0, 0, 1, 1, 0, 0, 0, 0, 0, 0, 1, 1, 0, 0, 0, 0, 0, 0, 0, 0, 0, 0, 0,
    0, 0, 0, 0, 0, 0, 0, 0, 0, 0, 0, 0, 0, 0, 0, 0],
   [0, 0, 0, 1, 1, 0, 0, 0, 0, 0, 0, 1, 1, 0, 0, 0, 0, 0, 0, 1, 1, 0, 0, 0,
    1, 1, 1, 1, 1, 1, 1, 1, 1, 1, 1, 1, 1, 1, 1, 1, 0, 0, 0, 1, 1, 0, 0, 0,
    0, 0, 0, 1, 1, 0, 0, 0, 0, 0, 0, 1, 1, 0, 0, 0],
   [1, 1, 1, 1, 1, 1, 1, 1, 1, 0, 0, 0, 0, 0, 0, 1, 1, 0, 0, 0, 0, 0, 0, 1,
    1, 0, 0, 1, 1, 0, 0, 1, 1, 0, 0, 1, 1, 0, 0, 1, 1, 0, 0, 0, 0, 0, 0, 1,
    1, 0, 0, 0, 0, 0, 0, 1, 1, 1, 1, 1, 1, 1, 1, 1],
   [1, 1, 1, 1, 1, 1, 1, 1, 1, 1, 1, 1, 1, 1, 1, 1, 1, 1, 0, 0, 0, 0, 1, 1,
    1, 1, 0, 1, 1, 0, 1, 1, 1, 1, 0, 1, 1, 0, 1, 1, 1, 1, 0, 0, 0, 0, 1, 1,
    1, 1, 1, 1, 1, 1, 1, 1, 1, 1, 1, 1, 1, 1, 1, 1]]

/-- Number of ink bits in a character mask; measures glyph density. -/
def inkCount (mask : List Nat) : Nat := mask.count 1

/-- Normalized block luminance with contrast boost: the raw block average (in
0..255) divided by 255, then (subtract 0.2, times 1.5, clamp to [0, 1]). -/
def asciiNormLum (avg : ℚ) : ℚ := jsClamp ((avg / 255 - 0.2) * 1.5) 0 1

/-- Character index: Math.floor((1 - lum) * (CHARS.length - 1)); darker blocks
get denser characters. -/
def asciiCharIndex (lum : ℚ) : Nat :=
  (Int.floor ((1 - lum) * ((CHARS.length : ℚ) - 1))).toNat

/-- Process one 8 x 8 ASCII block: average the luminance of the in-bounds
pixels, select the character mask, and draw it in ink over paper. -/
def asciiBlock (w h x y : Nat) (d : Nat → Nat) : Nat → Nat :=
  let rows := min 8 (h - y)
  let cols := min 8 (w - x)
  let totalLum : ℚ :=
    forLoop rows (fun bY a =>
      forLoop cols (fun bX a2 =>
        let i := ((y + bY) * w + (x + bX)) * 4
        a2 + (0.299 * (d i : ℚ) + 0.587 * (d (i + 1) : ℚ) +
          0.114 * (d (i + 2) : ℚ))) a) 0
  let count : Nat := rows * cols
  let mask := CHARS.getD (asciiCharIndex (asciiNormLum (totalLum / (count : ℚ)))) []
  forLoop 8 (fun bY dY =>
    forLoop 8 (fun bX dX =>
      let py := y + bY
      let px := x + bX
      if py < h ∧ px < w then
        let col : Nat × Nat × Nat :=
          if mask.getD (bY * 8 + bX) 0 = 1 then (36, 0, 70) else (250, 250, 250)
        setRGB dX ((py * w + px) * 4) col.1 col.2.1 col.2.2
      else dX) dY) d

/-- ASCII filter using the 8 x 8 bitmap characters, current engine revision. -/
def ascii (img : Frame) : Frame :=
  { img with data :=
      forLoop (ceilDiv img.height 8) (fun ky d =>
        forLoop (ceilDiv img.width 8) (fun kx d =>
          asciiBlock img.width img.height (8 * kx) (8 * ky) d) d) img.data }

/-- Bundle of the abstract primitives a filter may consume: Math.exp, Math.pow
with gamma 0.7, and two Math.random streams. -/
structure Env where
  ex : ℚ → ℚ
  powg : ℚ → ℚ
  rnd1 : Nat → ℚ
  rnd2 : Nat → ℚ

/-- A catalog entry: user-facing name, icon identifier, transform. -/
structure FilterDefinition where
  name : String
  icon : String
  apply : Env → Frame → Frame

/-- The ordered filter catalog. -/
def filters : List FilterDefinition :=
  [⟨"None", "circle-off", fun _ => identity⟩,
   ⟨"Orange & Teal", "sun", fun e => orangeTeal e.ex e.rnd1 e.rnd2⟩,
   ⟨"White Noise", "tv", fun e => whiteNoise e.powg e.rnd1⟩,
   ⟨"8-Bit", "grid-3x3", fun _ => eightBit⟩,
   ⟨"ASCII", "type", fun _ => ascii⟩]

/-- Set the current filter by name: the store is updated only when
filters.find with exact string equality succeeds; otherwise the current
selection is kept. -/
def setFilterByName (name : String) (cur : FilterDefinition) : FilterDefinition :=
  match filters.find? (fun f => f.name == name) with
  | some f => f
  | none => cur

/-- Set the current filter by index, bounds-checked: out-of-range indices
leave the current selection unchanged. -/
def setFilterByIndex (index : ℤ) (cur : FilterDefinition) : FilterDefinition :=
  if 0 ≤ index ∧ index < (filters.length : ℤ) then
    filters.getD index.toNat ⟨"None", "circle-off", fun _ => identity⟩
  else cur

/-- Render-loop phase: waiting is the readiness poll in the function
startRenderingWhenReady, looping is the steady requestAnimationFrame loop. -/
inductive Phase
  | waiting
  | looping
deriving DecidableEq

/-- Observable render-loop state: current phase and the number of frames
written to the visible canvas so far. -/
structure LoopState where
  phase : Phase
  presents : Nat

/-- readyState threshold the per-frame guard requires before drawing. -/
def HAVE_CURRENT_DATA : Nat := 2

/-- readyState threshold the readiness poll requires before starting. -/
def HAVE_ENOUGH_DATA : Nat := 4

/-- One animation-frame callback.  While waiting, checkReady starts the render
loop only once readyState reaches HAVE_ENOUGH_DATA, and the first loop body
then draws (4 is at least HAVE_CURRENT_DATA).  While looping, the body draws
exactly when readyState is at least HAVE_CURRENT_DATA, then reschedules. -/
def tick (readyState : Nat → Nat) (t : Nat) (s : LoopState) : LoopState :=
  match s.phase with
  | Phase.waiting =>
    if HAVE_ENOUGH_DATA ≤ readyState t then
      { phase := Phase.looping, presents := s.presents + 1 }
    else s
  | Phase.looping =>
    { phase := Phase.looping,
      presents := if HAVE_CURRENT_DATA ≤ readyState t then s.presents + 1 else s.presents }

/-- State after n animation-frame callbacks, starting from the initial poll. -/
def run (readyState : Nat → Nat) : Nat → LoopState
  | 0 => { phase := Phase.waiting, presents := 0 }
  | n + 1 => tick readyState n (run readyState n)

/-- Width and height reported by the video track, when a track exists; each
dimension is absent when getSettings does not carry it. -/
structure TrackSettings where
  width : Option Nat
  height : Option Nat

/-- The JavaScript pattern (value or default): falsy values, that is an absent
field or 0, fall back to the default. -/
def jsOrDefault (v : Option Nat) (dflt : Nat) : Nat :=
  match v with
  | some n => if n = 0 then dflt else n
  | none => dflt

/-- Dimensions initializeCanvas assigns: the track settings when present and
nonzero, otherwise the fallback defaults 640 and 480. -/
def initializeCanvasSize (track : Option TrackSettings) : Nat × Nat :=
  match track with
  | some s => (jsOrDefault s.width 640, jsOrDefault s.height 480)
  | none => (640, 480)

/-- The sizing assignment initializeCanvas performs: the source sets
canvasElement.width and canvasElement.height unconditionally, so the result
is some dimensions for every input, never none (none would model a source
leaving the buffer unsized). -/
def initializeCanvasAssigns (track : Option TrackSettings) : Option (Nat × Nat) :=
  some (initializeCanvasSize track)

/-- First strict minimum of f over a nonempty list with head a: the source
loop keeps the current best and replaces it only on a strictly smaller
distance, so the earliest element attaining the minimum wins. -/
def firstMin {α : Type*} (f : α → ℤ) (a : α) : List α → α
  | [] => a
  | c :: l => if f c < f a then firstMin f c l else firstMin f a l

/-- Colour the 8-bit filter gives pixel (px, py) of the block row starting at
y: the block containing px supplies the centre-sampled nearest palette
colour; the top and left block edges are darkened. -/
def rowSpecColor (w h y : Nat) (d : Nat → Nat) (px py : Nat) : Nat × Nat × Nat :=
  let cc := blockColor w h (10 * (px / 10)) y d
  if px % 10 = 0 ∨ py = y then darken cc else cc

/-- Pointwise description of the 8-bit filter: pixel (px, py) lies in the
block starting at (10 * (px / 10), 10 * (py / 10)); the block is filled with
the palette colour nearest the pixel sampled at the block centre (clipped to
the frame), and the one-pixel top and left block edges (px or py divisible by
the block size) are darkened by the factor 0.15. -/
def eightBitSpecColor (w h : Nat) (d : Nat → Nat) (px py : Nat) : Nat × Nat × Nat :=
  let cc := blockColor w h (10 * (px / 10)) (10 * (py / 10)) d
  if px % 10 = 0 ∨ py % 10 = 0 then darken cc else cc

lemma forLoop_succ {σ : Type*} (n : Nat) (f : Nat → σ → σ) (s : σ) :
    forLoop (n + 1) f s = f n (forLoop n f s) := rfl

lemma forLoop_inv {σ : Type*} (P : σ → Prop) (f : Nat → σ → σ)
    (hstep : ∀ i s, P s → P (f i s)) :
    ∀ (n : Nat) (s : σ), P s → P (forLoop n f s)
  | 0, _, h => h
  | n + 1, s, h => hstep n _ (forLoop_inv P f hstep n s h)

lemma setRGB_apply (d : Nat → Nat) (i r g b j : Nat) :
    setRGB d i r g b j =
      if j = i + 2 then b else if j = i + 1 then g else if j = i then r else d j := rfl

lemma setRGB_ne (d : Nat → Nat) (i r g b j : Nat)
    (h0 : j ≠ i) (h1 : j ≠ i + 1) (h2 : j ≠ i + 2) :
    setRGB d i r g b j = d j := by
  rw [setRGB_apply, if_neg h2, if_neg h1, if_neg h0]

lemma setRGB_alpha (d : Nat → Nat) (m r g b q : Nat) :
    setRGB d (m * 4) r g b (q * 4 + 3) = d (q * 4 + 3) :=
  setRGB_ne _ _ _ _ _ _ (by omega) (by omega) (by omega)

lemma orangeTeal_alpha (ex : ℚ → ℚ) (rnd1 rnd2 : Nat → ℚ) (img : Frame) (q : Nat) :
    (orangeTeal ex rnd1 rnd2 img).data (q * 4 + 3) = img.data (q * 4 + 3) := by
  refine forLoop_inv (fun d => ∀ q', d (q' * 4 + 3) = img.data (q' * 4 + 3)) _
    ?_ _ img.data (fun _ => rfl) q
  intro p d hP q'
  simp only
  rw [setRGB_alpha]
  exact hP q'

lemma whiteNoise_alpha (powg : ℚ → ℚ) (rnd : Nat → ℚ) (img : Frame) (q : Nat) :
    (whiteNoise powg rnd img).data (q * 4 + 3) = img.data (q * 4 + 3) := by
  refine forLoop_inv (fun d => ∀ q', d (q' * 4 + 3) = img.data (q' * 4 + 3)) _
    ?_ _ img.data (fun _ => rfl) q
  intro y d0 h0 q'
  simp only
  refine forLoop_inv
    (fun acc : (Nat → Nat) × ℚ => ∀ q', acc.1 (q' * 4 + 3) = img.data (q' * 4 + 3)) _
    ?_ img.width (d0, (0 : ℚ)) h0 q'
  intro x acc hacc q''
  simp only
  rw [setRGB_alpha]
  exact hacc q''

lemma fillBlock_alpha (w h x y : Nat) (c : Nat × Nat × Nat) (d : Nat → Nat) (q : Nat) :
    fillBlock w h x y c d (q * 4 + 3) = d (q * 4 + 3) := by
  refine forLoop_inv (fun d2 => ∀ q', d2 (q' * 4 + 3) = d (q' * 4 + 3)) _
    ?_ 10 d (fun _ => rfl) q
  intro bY dY hY q'
  refine forLoop_inv (fun d2 => ∀ q', d2 (q' * 4 + 3) = d (q' * 4 + 3)) _
    ?_ 10 dY hY q'
  intro bX dX hX q''
  simp only
  split
  · rw [setRGB_alpha]; exact hX q''
  · exact hX q''

lemma eightBit_alpha (img : Frame) (q : Nat) :
    (eightBit img).data (q * 4 + 3) = img.data (q * 4 + 3) := by
  refine forLoop_inv (fun d => ∀ q', d (q' * 4 + 3) = img.data (q' * 4 + 3)) _
    ?_ _ img.data (fun _ => rfl) q
  intro ky d hk q'
  refine forLoop_inv (fun d2 => ∀ q', d2 (q' * 4 + 3) = img.data (q' * 4 + 3)) _
    ?_ _ d hk q'
  intro kx d2 hk2 q''
  rw [fillBlock_alpha]
  exact hk2 q''

lemma asciiBlock_alpha (w h x y : Nat) (d : Nat → Nat) (q : Nat) :
    asciiBlock w h x y d (q * 4 + 3) = d (q * 4 + 3) := by
  simp only [asciiBlock]
  refine forLoop_inv (fun d2 => ∀ q', d2 (q' * 4 + 3) = d (q' * 4 + 3)) _
    ?_ 8 d (fun _ => rfl) q
  intro bY dY hY q'
  refine forLoop_inv (fun d2 => ∀ q', d2 (q' * 4 + 3) = d (q' * 4 + 3)) _
    ?_ 8 dY hY q'
  intro bX dX hX q''
  split
  · rw [setRGB_alpha]; exact hX q''
  · exact hX q''

lemma ascii_alpha (img : Frame) (q : Nat) :
    (ascii img).data (q * 4 + 3) = img.data (q * 4 + 3) := by
  refine forLoop_inv (fun d => ∀ q', d (q' * 4 + 3) = img.data (q' * 4 + 3)) _
    ?_ _ img.data (fun _ => rfl) q
  intro ky d hk q'
  refine forLoop_inv (fun d2 => ∀ q', d2 (q' * 4 + 3) = img.data (q' * 4 + 3)) _
    ?_ _ d hk q'
  intro kx d2 hk2 q''
  rw [asciiBlock_alpha]
  exact hk2 q''

/-- C1: for the Orange and Teal, Distressed-monochrome (White Noise),
Block-quantization (8-Bit) and Glyph-rendering (ASCII) transforms, the alpha
channel of every output pixel (byte q * 4 + 3 of pixel q) equals the input
pixel's alpha channel exactly, for every input frame, every pixel and every
behaviour of the abstract Math.exp, Math.pow and Math.random primitives. -/
theorem filters_preserve_alpha (ex powg : ℚ → ℚ) (rnd1 rnd2 : Nat → ℚ)
    (img : Frame) (q : Nat) :
    (orangeTeal ex rnd1 rnd2 img).data (q * 4 + 3) = img.data (q * 4 + 3) ∧
    (whiteNoise powg rnd1 img).data (q * 4 + 3) = img.data (q * 4 + 3) ∧
    (eightBit img).data (q * 4 + 3) = img.data (q * 4 + 3) ∧
    (ascii img).data (q * 4 + 3) = img.data (q * 4 + 3) :=
  ⟨orangeTeal_alpha ex rnd1 rnd2 img q, whiteNoise_alpha powg rnd1 img q,
    eightBit_alpha img q, ascii_alpha img q⟩

/-- C3: the Identity transform returns a frame in which dimensions and every
byte of the buffer (hence every channel of every pixel) are identical to the
input, for every input frame of any dimensions including 1 x 1. -/
theorem identity_returns_input (img : Frame) :
    identity img = img ∧ (identity img).width = img.width ∧
    (identity img).height = img.height ∧
    ∀ j, (identity img).data j = img.data j :=
  ⟨rfl, rfl, rfl, fun _ => rfl⟩

/-- C4: grayscale conversion by the luminance formula: an opaque pure-red
pixel becomes 76 = round(0.299 * 255) in all three colour channels, pure
green 150, pure blue 29, pure white 255 and pure black 0, with alpha kept. -/
theorem asciiGrayscale_luminance_values :
    (List.range 4).map (V1.asciiGrayscale (frame1x1 255 0 0 255)).data =
      [76, 76, 76, 255] ∧
    (List.range 4).map (V1.asciiGrayscale (frame1x1 0 255 0 255)).data =
      [150, 150, 150, 255] ∧
    (List.range 4).map (V1.asciiGrayscale (frame1x1 0 0 255 255)).data =
      [29, 29, 29, 255] ∧
    (List.range 4).map (V1.asciiGrayscale (frame1x1 255 255 255 255)).data =
      [255, 255, 255, 255] ∧
    (List.range 4).map (V1.asciiGrayscale (frame1x1 0 0 0 255)).data =
      [0, 0, 0, 255] := by
  refine ⟨?_, ?_, ?_, ?_, ?_⟩ <;> with_unfolding_all rfl

/-- C7: the averaging 8-bit variant maps a 2 x 2 frame alternating between
100 and 200 in every colour channel to 150 everywhere, and a 2 x 2 frame with
pixels (255,0,0), (0,255,0), (0,0,255), (255,255,0) to R = 128, G = 128,
B = 64 everywhere (alpha untouched). -/
theorem v1_eightBit_block_average_values :
    (List.range 16).map (V1.eightBit (frame2x2
      [100, 100, 100, 255, 200, 200, 200, 255,
       100, 100, 100, 255, 200, 200, 200, 255])).data =
      [150, 150, 150, 255, 150, 150, 150, 255,
       150, 150, 150, 255, 150, 150, 150, 255] ∧
    (List.range 16).map (V1.eightBit (frame2x2
      [255, 0, 0, 255, 0, 255, 0, 255,
       0, 0, 255, 255, 255, 255, 0, 255])).data =
      [128, 128, 64, 255, 128, 128, 64, 255,
       128, 128, 64, 255, 128, 128, 64, 255] := by
  refine ⟨?_, ?_⟩ <;> with_unfolding_all rfl

lemma run_never_enough (readyState : Nat → Nat)
    (h : ∀ t, readyState t < HAVE_ENOUGH_DATA) :
    ∀ n, run readyState n = { phase := Phase.waiting, presents := 0 } := by
  intro n
  induction n with
  | zero => rfl
  | succ n ih =>
    have hn := h n
    simp only [run, ih, tick]
    rw [if_neg (by omega)]

/-- C8: given a source that never reports a decodable frame (readyState stays
below HAVE_CURRENT_DATA on every tick), the render loop never writes a frame
to the visible canvas: the present count is 0 after every number of ticks. -/
theorem renderLoop_never_ready_zero_presents (readyState : Nat → Nat)
    (h : ∀ t, readyState t < HAVE_CURRENT_DATA) (n : Nat) :
    (run readyState n).presents = 0 := by
  have : ∀ t, readyState t < HAVE_ENOUGH_DATA := by
    intro t
    have := h t
    simp only [HAVE_CURRENT_DATA] at this
    simp only [HAVE_ENOUGH_DATA]
    omega
  rw [run_never_enough readyState this n]

/-- C8 witness: a source whose readyState is constantly 0 yields zero
presents after five ticks. -/
theorem renderLoop_never_ready_zero_presents_witness :
    (run (fun _ => 0) 5).presents = 0 :=
  renderLoop_never_ready_zero_presents (fun _ => 0)
    (fun _ => by simp [HAVE_CURRENT_DATA]) 5

/-- C9 counterexample: the claim says that when no resolution can be obtained
from the source the loop does not size the buffer; but initializeCanvas
assigns canvasElement.width and canvasElement.height unconditionally, so for
a stream with no video track (input none) the buffer is sized, to the
fallback defaults 640 x 480, rather than left unsized. -/
theorem initializeCanvas_sizes_even_without_resolution :
    initializeCanvasAssigns none = some (640, 480) := rfl

/-- C9 (amended): on attach the canvas buffer is sized to exactly the
reported nonzero native resolution when the track reports one; when no
resolution can be obtained (no track, or absent or zero settings) it is sized
to the fallback defaults 640 x 480 instead; and the loop does not proceed to
per-frame processing while the source never reaches HAVE_ENOUGH_DATA. -/
theorem initializeCanvas_resolution_or_fallback (w h : Nat)
    (hw : w ≠ 0) (hh : h ≠ 0) :
    initializeCanvasSize (some ⟨some w, some h⟩) = (w, h) ∧
    initializeCanvasSize none = (640, 480) ∧
    initializeCanvasSize (some ⟨none, none⟩) = (640, 480) ∧
    initializeCanvasSize (some ⟨some 0, some 0⟩) = (640, 480) ∧
    ∀ readyState : Nat → Nat, (∀ t, readyState t < HAVE_ENOUGH_DATA) →
      ∀ n, (run readyState n).phase = Phase.waiting := by
  refine ⟨?_, rfl, rfl, rfl, ?_⟩
  · simp [initializeCanvasSize, jsOrDefault, hw, hh]
  · intro readyState hr n
    rw [run_never_enough readyState hr n]

/-- C9 witness: the amended claim at the concrete resolution 1280 x 720 and
at a constantly unready source observed after three ticks. -/
theorem initializeCanvas_resolution_or_fallback_witness :
    initializeCanvasSize (some ⟨some 1280, some 720⟩) = (1280, 720) ∧
    (run (fun _ => 1) 3).phase = Phase.waiting :=
  ⟨(initializeCanvas_resolution_or_fallback 1280 720 (by omega) (by omega)).1,
    (initializeCanvas_resolution_or_fallback 1280 720 (by omega) (by omega)).2.2.2.2
      (fun _ => 1) (fun _ => by simp [HAVE_ENOUGH_DATA]) 3⟩

/-- C6: selecting by name updates the active selection exactly when the name
matches a catalog entry by exact string equality (an unknown name is a silent
no-op), and selecting by index updates exactly for indices inside the catalog
bounds (out-of-range indices are a no-op). -/
theorem registry_select_contract :
    (∀ (name : String) (cur : FilterDefinition),
      (∃ f ∈ filters, f.name = name) →
        setFilterByName name cur ∈ filters ∧ (setFilterByName name cur).name = name) ∧
    (∀ (name : String) (cur : FilterDefinition),
      (∀ f ∈ filters, f.name ≠ name) → setFilterByName name cur = cur) ∧
    (∀ (index : ℤ) (cur : FilterDefinition),
      0 ≤ index → index < (filters.length : ℤ) →
        setFilterByIndex index cur =
          filters.getD index.toNat ⟨"None", "circle-off", fun _ => identity⟩ ∧
        setFilterByIndex index cur ∈ filters) ∧
    (∀ (index : ℤ) (cur : FilterDefinition),
      index < 0 ∨ (filters.length : ℤ) ≤ index → setFilterByIndex index cur = cur) := by
  refine ⟨?_, ?_, ?_, ?_⟩
  · intro name cur h
    obtain ⟨f, hf, hname⟩ := h
    have hsome : (filters.find? (fun g => g.name == name)).isSome :=
      List.find?_isSome.mpr ⟨f, hf, by simp [hname]⟩
    obtain ⟨g, hg⟩ := Option.isSome_iff_exists.mp hsome
    have hmem := List.mem_of_find?_eq_some hg
    have hgname := List.find?_some hg
    unfold setFilterByName
    rw [hg]
    exact ⟨hmem, by simpa using hgname⟩
  · intro name cur h
    unfold setFilterByName
    cases hfind : filters.find? (fun g => g.name == name) with
    | none => rfl
    | some g =>
      have hmem := List.mem_of_find?_eq_some hfind
      have hgname := List.find?_some hfind
      exact absurd (by simpa using hgname) (h g hmem)
  · intro index cur h0 hlen
    unfold setFilterByIndex
    rw [if_pos ⟨h0, hlen⟩]
    have hlt : index.toNat < filters.length := by omega
    refine ⟨rfl, ?_⟩
    rw [List.getD_eq_getElem _ _ hlt]
    exact List.getElem_mem hlt
  · intro index cur h
    unfold setFilterByIndex
    rw [if_neg]
    rintro ⟨h0, hlen⟩
    omega

/-- C6 witness: selecting the existing name 8-Bit succeeds, selecting the
unknown name Sepia is a no-op, index 3 selects the fourth entry, index 7 is a
no-op. -/
theorem registry_select_contract_witness :
    (setFilterByName "8-Bit" ⟨"None", "circle-off", fun _ => identity⟩ ∈ filters ∧
      (setFilterByName "8-Bit" ⟨"None", "circle-off", fun _ => identity⟩).name = "8-Bit") ∧
    setFilterByName "Sepia" ⟨"None", "circle-off", fun _ => identity⟩ =
      ⟨"None", "circle-off", fun _ => identity⟩ ∧
    setFilterByIndex 3 ⟨"None", "circle-off", fun _ => identity⟩ =
      filters.getD 3 ⟨"None", "circle-off", fun _ => identity⟩ ∧
    setFilterByIndex 7 ⟨"None", "circle-off", fun _ => identity⟩ =
      ⟨"None", "circle-off", fun _ => identity⟩ :=
  ⟨registry_select_contract.1 "8-Bit" _
      ⟨⟨"8-Bit", "grid-3x3", fun _ => eightBit⟩, by simp [filters], rfl⟩,
    registry_select_contract.2.1 "Sepia" _ (by
      intro f hf
      simp only [filters, List.mem_cons, List.not_mem_nil, or_false] at hf
      rcases hf with h | h | h | h | h <;> subst h <;> simp),
    (registry_select_contract.2.2.1 3 _ (by omega) (by simp [filters])).1,
    registry_select_contract.2.2.2 7 _ (Or.inr (by simp [filters]))⟩

lemma jsClamp_mono {a b lo hi : ℚ} (h : a ≤ b) : jsClamp a lo hi ≤ jsClamp b lo hi :=
  max_le_max le_rfl (min_le_min le_rfl h)

lemma asciiNormLum_mono {a b : ℚ} (h : a ≤ b) : asciiNormLum a ≤ asciiNormLum b := by
  unfold asciiNormLum
  exact jsClamp_mono (by linarith)

/-- C5: the glyph index the ASCII transform uses for a block is
Math.floor((1 - normalizedLuminance) * (glyphCount - 1)); the mapping is a
deterministic function and is monotone (antitone in brightness), block
brightness 0 selects the last glyph index, which carries the densest bitmap,
and brightness 255 selects glyph index 0, which carries the emptiest. -/
theorem ascii_glyph_index_monotone (b1 b2 : ℚ) (h : b1 ≤ b2) :
    asciiCharIndex (asciiNormLum b2) ≤ asciiCharIndex (asciiNormLum b1) ∧
    (∀ lum : ℚ, asciiCharIndex lum =
      (Int.floor ((1 - lum) * ((CHARS.length : ℚ) - 1))).toNat) ∧
    asciiCharIndex (asciiNormLum 0) = CHARS.length - 1 ∧
    asciiCharIndex (asciiNormLum 255) = 0 ∧
    (∀ m ∈ CHARS, inkCount m ≤ inkCount (CHARS.getD (CHARS.length - 1) [])) ∧
    (∀ m ∈ CHARS, inkCount (CHARS.getD 0 []) ≤ inkCount m) := by
  refine ⟨?_, fun _ => rfl, by with_unfolding_all rfl, by with_unfolding_all rfl,
    by decide, by decide⟩
  have hl : asciiNormLum b1 ≤ asciiNormLum b2 := asciiNormLum_mono h
  unfold asciiCharIndex
  apply Int.toNat_le_toNat
  apply Int.floor_le_floor
  have hn : (0 : ℚ) ≤ (CHARS.length : ℚ) - 1 := by
    have h5 : CHARS.length = 5 := rfl
    rw [h5]
    norm_num
  exact mul_le_mul_of_nonneg_right (by linarith) hn

/-- C5 witness: the mapping applied at brightness 10 and 200, and the
endpoint values. -/
theorem ascii_glyph_index_monotone_witness :
    asciiCharIndex (asciiNormLum 200) ≤ asciiCharIndex (asciiNormLum 10) ∧
    asciiCharIndex (asciiNormLum 0) = CHARS.length - 1 ∧
    asciiCharIndex (asciiNormLum 255) = 0 :=
  ⟨(ascii_glyph_index_monotone 10 200 (by decide)).1,
    (ascii_glyph_index_monotone 10 200 (by decide)).2.2.1,
    (ascii_glyph_index_monotone 10 200 (by decide)).2.2.2.1⟩

lemma foldl_min_eq_firstMin {α : Type*} (f : α → ℤ) :
    ∀ (l : List α) (a : α),
      l.foldl (fun acc c => match acc.2 with
        | none => (c, some (f c))
        | some m => if f c < m then (c, some (f c)) else acc) (a, some (f a)) =
      (firstMin f a l, some (f (firstMin f a l)))
  | [], _ => rfl
  | c :: l, a => by
    by_cases hcf : f c < f a
    · have hstep : (match (a, some (f a)).2 with
          | none => (c, some (f c))
          | some m => if f c < m then (c, some (f c)) else (a, some (f a))) =
          (c, some (f c)) := by simp [hcf]
      rw [List.foldl_cons, hstep, foldl_min_eq_firstMin f l c]
      rw [show firstMin f a (c :: l) = firstMin f c l by rw [firstMin, if_pos hcf]]
    · have hstep : (match (a, some (f a)).2 with
          | none => (c, some (f c))
          | some m => if f c < m then (c, some (f c)) else (a, some (f a))) =
          (a, some (f a)) := by simp [hcf]
      rw [List.foldl_cons, hstep, foldl_min_eq_firstMin f l a]
      rw [show firstMin f a (c :: l) = firstMin f a l by rw [firstMin, if_neg hcf]]

lemma firstMin_decomp {α : Type*} (f : α → ℤ) :
    ∀ (l : List α) (a : α), ∃ l₁ l₂,
      a :: l = l₁ ++ firstMin f a l :: l₂ ∧
      (∀ c ∈ l₁, f (firstMin f a l) < f c) ∧
      (∀ c ∈ l₂, f (firstMin f a l) ≤ f c)
  | [], a => ⟨[], [], rfl, by simp, by simp⟩
  | c :: l, a => by
    by_cases hcf : f c < f a
    · obtain ⟨l₁, l₂, heq, h1, h2⟩ := firstMin_decomp f l c
      have hfm : firstMin f a (c :: l) = firstMin f c l := by rw [firstMin, if_pos hcf]
      have hmin_le_c : f (firstMin f c l) ≤ f c := by
        have hc_mem : c ∈ c :: l := List.mem_cons_self c l
        rw [heq] at hc_mem
        rcases List.mem_append.mp hc_mem with hml | hmr
        · exact le_of_lt (h1 c hml)
        · rcases List.mem_cons.mp hmr with hceq | hml2
          · have hfc := congrArg f hceq
            omega
          · exact h2 c hml2
      refine ⟨a :: l₁, l₂, ?_, ?_, by rw [hfm]; exact h2⟩
      · rw [hfm, List.cons_append, ← heq]
      · intro x hx
        rw [hfm]
        rcases List.mem_cons.mp hx with hxa | hxl
        · rw [hxa]; exact lt_of_le_of_lt hmin_le_c hcf
        · exact h1 x hxl
    · obtain ⟨l₁, l₂, heq, h1, h2⟩ := firstMin_decomp f l a
      have hfm : firstMin f a (c :: l) = firstMin f a l := by rw [firstMin, if_neg hcf]
      cases l₁ with
      | nil =>
        have hfa : firstMin f a l = a := by
          have := (List.cons.injEq _ _ _ _).mp heq.symm
          exact this.1
        have hl2 : l₂ = l := by
          have := (List.cons.injEq _ _ _ _).mp heq.symm
          exact this.2
        refine ⟨[], c :: l, ?_, by simp, ?_⟩
        · rw [hfm, hfa, List.nil_append]
        · intro x hx
          rw [hfm, hfa]
          rcases List.mem_cons.mp hx with hxc | hxl
          · rw [hxc]; omega
          · have := h2 x (by rw [hl2]; exact hxl)
            rw [hfa] at this
            exact this
      | cons a' l₁' =>
        have heq2 := (List.cons.injEq _ _ _ _).mp (by simpa using heq)
        obtain ⟨haa, hl⟩ := heq2
        refine ⟨a :: c :: l₁', l₂, ?_, ?_, by rw [hfm]; exact h2⟩
        · rw [hfm, List.cons_append, List.cons_append, ← hl]
        · intro x hx
          rw [hfm]
          have hfa_lt : f (firstMin f a l) < f a := by
            apply h1
            rw [haa]
            exact List.mem_cons_self a' l₁'
          rcases List.mem_cons.mp hx with hxa | hx2
          · rw [hxa]; exact hfa_lt
          · rcases List.mem_cons.mp hx2 with hxc | hxl
            · rw [hxc]; omega
            · exact h1 x (List.mem_cons_of_mem _ hxl)

lemma closestColor_eq_firstMin (r g b : Nat) :
    closestColor r g b = firstMin (dist2 r g b) (36, 0, 70)
      [(60, 9, 108), (90, 24, 154), (123, 44, 191),
       (255, 109, 0), (255, 158, 0), (240, 240, 240)] := by
  have h := foldl_min_eq_firstMin (dist2 r g b)
    [(60, 9, 108), (90, 24, 154), (123, 44, 191),
     (255, 109, 0), (255, 158, 0), (240, 240, 240)] ((36, 0, 70) : Nat × Nat × Nat)
  unfold closestColor PALETTE
  rw [List.foldl_cons]
  exact congrArg Prod.fst h

lemma closestColor_decomp (r g b : Nat) :
    ∃ l₁ l₂, PALETTE = l₁ ++ closestColor r g b :: l₂ ∧
      (∀ c ∈ l₁, dist2 r g b (closestColor r g b) < dist2 r g b c) ∧
      (∀ c ∈ PALETTE, dist2 r g b (closestColor r g b) ≤ dist2 r g b c) := by
  rw [closestColor_eq_firstMin]
  obtain ⟨l₁, l₂, heq, h1, h2⟩ := firstMin_decomp (dist2 r g b)
    [(60, 9, 108), (90, 24, 154), (123, 44, 191),
     (255, 109, 0), (255, 158, 0), (240, 240, 240)] ((36, 0, 70) : Nat × Nat × Nat)
  have hP : PALETTE = ((36, 0, 70) : Nat × Nat × Nat) ::
      [(60, 9, 108), (90, 24, 154), (123, 44, 191),
       (255, 109, 0), (255, 158, 0), (240, 240, 240)] := rfl
  refine ⟨l₁, l₂, by rw [hP, heq], h1, ?_⟩
  intro c hc
  rw [hP, heq] at hc
  rcases List.mem_append.mp hc with hml | hmr
  · exact le_of_lt (h1 c hml)
  · rcases List.mem_cons.mp hmr with hceq | hml2
    · rw [hceq]
    · exact h2 c hml2

lemma closestColor_mem (r g b : Nat) : closestColor r g b ∈ PALETTE := by
  obtain ⟨l₁, l₂, heq, _, _⟩ := closestColor_decomp r g b
  rw [heq]
  exact List.mem_append.mpr (Or.inr (List.mem_cons_self _ _))

lemma pixel_mod (w px py : Nat) (h : px < w) : (py * w + px) % w = px := by
  rw [Nat.add_comm, Nat.add_mul_mod_self_right]
  exact Nat.mod_eq_of_lt h

lemma pixel_div (w px py : Nat) (h : px < w) : (py * w + px) / w = py := by
  have hw : 0 < w := by omega
  rw [Nat.add_comm, Nat.add_mul_div_right _ _ hw, Nat.div_eq_of_lt h, Nat.zero_add]

lemma pix_eq_iff {w px py px2 py2 : Nat} (h : px < w) (h2 : px2 < w) :
    py * w + px = py2 * w + px2 ↔ px = px2 ∧ py = py2 := by
  constructor
  · intro he
    have hm1 := pixel_mod w px py h
    have hm2 := pixel_mod w px2 py2 h2
    have hd1 := pixel_div w px py h
    have hd2 := pixel_div w px2 py2 h2
    rw [he] at hm1 hd1
    exact ⟨hm1.symm.trans hm2, hd1.symm.trans hd2⟩
  · rintro ⟨rfl, rfl⟩
    rfl

lemma fillBlockRow_char (w h x y bY : Nat) (c : Nat × Nat × Nat) :
    ∀ (n : Nat) (d : Nat → Nat) (px py ch : Nat), px < w → ch < 3 →
    forLoop n (fun bX dX =>
      let pyy := y + bY
      let pxx := x + bX
      if pyy < h ∧ pxx < w then
        let col := if bX < 1 ∨ bY < 1 then darken c else c
        setRGB dX ((pyy * w + pxx) * 4) col.1 col.2.1 col.2.2
      else dX) d ((py * w + px) * 4 + ch) =
    (if py = y + bY ∧ y + bY < h ∧ x ≤ px ∧ px < x + n then
      chSel ch (if px = x ∨ bY = 0 then darken c else c)
    else d ((py * w + px) * 4 + ch)) := by
  intro n
  induction n with
  | zero =>
    intro d px py ch hpx hch
    rw [show (forLoop 0 (fun bX dX =>
      let pyy := y + bY
      let pxx := x + bX
      if pyy < h ∧ pxx < w then
        let col := if bX < 1 ∨ bY < 1 then darken c else c
        setRGB dX ((pyy * w + pxx) * 4) col.1 col.2.1 col.2.2
      else dX) d) = d from rfl]
    rw [if_neg]
    rintro ⟨_, _, h3, h4⟩
    omega
  | succ n ih =>
    intro d px py ch hpx hch
    rw [forLoop_succ]
    simp only
    by_cases hg : y + bY < h ∧ x + n < w
    · rw [if_pos hg]
      rw [setRGB_apply]
      by_cases hpe : px = x + n ∧ py = y + bY
      · obtain ⟨hpx_eq, hpy_eq⟩ := hpe
        subst hpx_eq
        subst hpy_eq
        have hcol : (if n < 1 ∨ bY < 1 then darken c else c) =
            (if x + n = x ∨ bY = 0 then darken c else c) :=
          if_congr (by omega) rfl rfl
        rw [hcol]
        rw [if_pos (show (y + bY = y + bY ∧ y + bY < h ∧ x ≤ x + n ∧ x + n < x + (n + 1))
          from ⟨rfl, hg.1, by omega, by omega⟩)]
        interval_cases ch
        · rw [if_neg (by omega), if_neg (by omega), if_pos (by omega)]
          rfl
        · rw [if_neg (by omega), if_pos (by omega)]
          rfl
        · rw [if_pos (by omega)]
          rfl
      · have hpix : ∀ t : Nat, t < 3 →
            (py * w + px) * 4 + ch = ((y + bY) * w + (x + n)) * 4 + t → False := by
          intro t ht he
          have h1 : py * w + px = (y + bY) * w + (x + n) := by omega
          have h2 := (pix_eq_iff hpx hg.2).mp h1
          exact hpe ⟨h2.1, h2.2⟩
        have hne2 : (py * w + px) * 4 + ch ≠ ((y + bY) * w + (x + n)) * 4 + 2 :=
          fun he => hpix 2 (by omega) he
        have hne1 : (py * w + px) * 4 + ch ≠ ((y + bY) * w + (x + n)) * 4 + 1 :=
          fun he => hpix 1 (by omega) he
        have hne0 : (py * w + px) * 4 + ch ≠ ((y + bY) * w + (x + n)) * 4 := by
          intro he
          exact hpix 0 (by omega) (by omega)
        rw [if_neg hne2, if_neg hne1, if_neg hne0]
        rw [ih d px py ch hpx hch]
        refine if_congr ?_ rfl rfl
        constructor
        · rintro ⟨h1, h2, h3, h4⟩
          exact ⟨h1, h2, h3, by omega⟩
        · rintro ⟨h1, h2, h3, h4⟩
          refine ⟨h1, h2, h3, ?_⟩
          rcases Nat.lt_or_ge px (x + n) with hlt | hge
          · exact hlt
          · exact absurd ⟨by omega, h1⟩ hpe
    · rw [if_neg hg]
      rw [ih d px py ch hpx hch]
      refine if_congr ?_ rfl rfl
      constructor
      · rintro ⟨h1, h2, h3, h4⟩
        exact ⟨h1, h2, h3, by omega⟩
      · rintro ⟨h1, h2, h3, h4⟩
        refine ⟨h1, h2, h3, ?_⟩
        have hxnw : ¬ (x + n < w) := fun hc => hg ⟨h2, hc⟩
        omega

lemma fillBlockRows_char (w h x y : Nat) (c : Nat × Nat × Nat) :
    ∀ (m : Nat) (d : Nat → Nat) (px py ch : Nat), px < w → ch < 3 →
    forLoop m (fun bY dY =>
      forLoop 10 (fun bX dX =>
        let pyy := y + bY
        let pxx := x + bX
        if pyy < h ∧ pxx < w then
          let col := if bX < 1 ∨ bY < 1 then darken c else c
          setRGB dX ((pyy * w + pxx) * 4) col.1 col.2.1 col.2.2
        else dX) dY) d ((py * w + px) * 4 + ch) =
    (if y ≤ py ∧ py < y + m ∧ py < h ∧ x ≤ px ∧ px < x + 10 then
      chSel ch (if px = x ∨ py = y then darken c else c)
    else d ((py * w + px) * 4 + ch)) := by
  intro m
  induction m with
  | zero =>
    intro d px py ch hpx hch
    rw [if_neg]
    · rfl
    · rintro ⟨h1, h2, _, _, _⟩
      omega
  | succ m ih =>
    intro d px py ch hpx hch
    rw [forLoop_succ]
    rw [fillBlockRow_char w h x y m c 10 _ px py ch hpx hch]
    by_cases hrow : py = y + m ∧ y + m < h ∧ x ≤ px ∧ px < x + 10
    · rw [if_pos hrow]
      obtain ⟨h1, h2, h3, h4⟩ := hrow
      rw [if_pos (show y ≤ py ∧ py < y + (m + 1) ∧ py < h ∧ x ≤ px ∧ px < x + 10
        from ⟨by omega, by omega, by omega, h3, h4⟩)]
      have hcol : ((px = x ∨ m = 0) ↔ (px = x ∨ py = y)) := by omega
      rw [if_congr hcol rfl rfl]
    · rw [if_neg hrow]
      rw [ih d px py ch hpx hch]
      refine if_congr ?_ rfl rfl
      constructor
      · rintro ⟨h1, h2, h3, h4, h5⟩
        exact ⟨h1, by omega, h3, h4, h5⟩
      · rintro ⟨h1, h2, h3, h4, h5⟩
        refine ⟨h1, ?_, h3, h4, h5⟩
        rcases Nat.lt_or_ge py (y + m) with hlt | hge
        · exact hlt
        · exact absurd ⟨by omega, by omega, h4, h5⟩ hrow

lemma fillBlock_char (w h x y : Nat) (c : Nat × Nat × Nat) (d : Nat → Nat)
    (px py ch : Nat) (hpx : px < w) (hch : ch < 3) :
    fillBlock w h x y c d ((py * w + px) * 4 + ch) =
    (if y ≤ py ∧ py < y + 10 ∧ py < h ∧ x ≤ px ∧ px < x + 10 then
      chSel ch (if px = x ∨ py = y then darken c else c)
    else d ((py * w + px) * 4 + ch)) := by
  unfold fillBlock
  exact fillBlockRows_char w h x y c 10 d px py ch hpx hch

lemma blockColor_congr (w h x y : Nat) (D d : Nat → Nat)
    (h0 : D ((min (y + 5) (h - 1) * w + min (x + 5) (w - 1)) * 4) =
          d ((min (y + 5) (h - 1) * w + min (x + 5) (w - 1)) * 4))
    (h1 : D ((min (y + 5) (h - 1) * w + min (x + 5) (w - 1)) * 4 + 1) =
          d ((min (y + 5) (h - 1) * w + min (x + 5) (w - 1)) * 4 + 1))
    (h2 : D ((min (y + 5) (h - 1) * w + min (x + 5) (w - 1)) * 4 + 2) =
          d ((min (y + 5) (h - 1) * w + min (x + 5) (w - 1)) * 4 + 2)) :
    blockColor w h x y D = blockColor w h x y d := by
  unfold blockColor
  simp only
  rw [h0, h1, h2]

lemma eightBitRow_char (w h y : Nat) :
    ∀ (K : Nat) (d : Nat → Nat) (px py ch : Nat), px < w → ch < 3 →
    forLoop K (fun kx d2 =>
      fillBlock w h (10 * kx) y (blockColor w h (10 * kx) y d2) d2) d
      ((py * w + px) * 4 + ch) =
    (if y ≤ py ∧ py < y + 10 ∧ py < h ∧ px < 10 * K then
      chSel ch (rowSpecColor w h y d px py)
    else d ((py * w + px) * 4 + ch)) := by
  intro K
  induction K with
  | zero =>
    intro d px py ch hpx hch
    rw [if_neg]
    · rfl
    · rintro ⟨_, _, _, h4⟩
      omega
  | succ K ih =>
    intro d px py ch hpx hch
    rw [forLoop_succ]
    by_cases hKw : 10 * K < w
    · have hcx : min (10 * K + 5) (w - 1) < w := by omega
      have hbc : blockColor w h (10 * K) y
            (forLoop K (fun kx d2 =>
              fillBlock w h (10 * kx) y (blockColor w h (10 * kx) y d2) d2) d) =
          blockColor w h (10 * K) y d := by
        have h0 := ih d (min (10 * K + 5) (w - 1)) (min (y + 5) (h - 1)) 0 hcx (by omega)
        have h1 := ih d (min (10 * K + 5) (w - 1)) (min (y + 5) (h - 1)) 1 hcx (by omega)
        have h2 := ih d (min (10 * K + 5) (w - 1)) (min (y + 5) (h - 1)) 2 hcx (by omega)
        rw [if_neg (by rintro ⟨_, _, _, hplt⟩; omega)] at h0 h1 h2
        rw [Nat.add_zero] at h0
        exact blockColor_congr w h (10 * K) y _ d h0 h1 h2
      rw [hbc]
      rw [fillBlock_char w h (10 * K) y _ _ px py ch hpx hch]
      by_cases hfill : y ≤ py ∧ py < y + 10 ∧ py < h ∧ 10 * K ≤ px ∧ px < 10 * K + 10
      · rw [if_pos hfill]
        obtain ⟨h1, h2, h3, h4, h5⟩ := hfill
        rw [if_pos (show y ≤ py ∧ py < y + 10 ∧ py < h ∧ px < 10 * (K + 1)
          from ⟨h1, h2, h3, by omega⟩)]
        have hdiv : 10 * (px / 10) = 10 * K := by omega
        unfold rowSpecColor
        rw [hdiv]
        have hb : ((px = 10 * K ∨ py = y) ↔ (px % 10 = 0 ∨ py = y)) := by omega
        rw [if_congr hb rfl rfl]
      · rw [if_neg hfill]
        rw [ih d px py ch hpx hch]
        refine if_congr ?_ rfl rfl
        constructor
        · rintro ⟨h1, h2, h3, h4⟩
          exact ⟨h1, h2, h3, by omega⟩
        · rintro ⟨h1, h2, h3, h4⟩
          refine ⟨h1, h2, h3, ?_⟩
          rcases Nat.lt_or_ge px (10 * K) with hlt | hge
          · exact hlt
          · exact absurd ⟨h1, h2, h3, hge, by omega⟩ hfill
    · rw [fillBlock_char w h (10 * K) y _ _ px py ch hpx hch]
      rw [if_neg (by rintro ⟨_, _, _, hle, _⟩; omega)]
      rw [ih d px py ch hpx hch]
      refine if_congr ?_ rfl rfl
      constructor
      · rintro ⟨h1, h2, h3, h4⟩
        exact ⟨h1, h2, h3, by omega⟩
      · rintro ⟨h1, h2, h3, h4⟩
        exact ⟨h1, h2, h3, by omega⟩

lemma eightBitRows_char (w h : Nat) :
    ∀ (M : Nat) (d : Nat → Nat) (px py ch : Nat), px < w → ch < 3 →
    forLoop M (fun ky d2 =>
      forLoop (ceilDiv w 10) (fun kx d3 =>
        fillBlock w h (10 * kx) (10 * ky)
          (blockColor w h (10 * kx) (10 * ky) d3) d3) d2) d
      ((py * w + px) * 4 + ch) =
    (if py < 10 * M ∧ py < h then
      chSel ch (eightBitSpecColor w h d px py)
    else d ((py * w + px) * 4 + ch)) := by
  intro M
  induction M with
  | zero =>
    intro d px py ch hpx hch
    rw [if_neg]
    · rfl
    · rintro ⟨h1, _⟩
      omega
  | succ M ih =>
    intro d px py ch hpx hch
    rw [forLoop_succ]
    rw [eightBitRow_char w h (10 * M) (ceilDiv w 10) _ px py ch hpx hch]
    have hpxK : px < 10 * ceilDiv w 10 := by
      unfold ceilDiv
      omega
    by_cases hhit : 10 * M ≤ py ∧ py < 10 * M + 10 ∧ py < h
    · obtain ⟨h1, h2, h3⟩ := hhit
      rw [if_pos (show 10 * M ≤ py ∧ py < 10 * M + 10 ∧ py < h ∧ px < 10 * ceilDiv w 10
        from ⟨h1, h2, h3, hpxK⟩)]
      rw [if_pos (show py < 10 * (M + 1) ∧ py < h from ⟨by omega, h3⟩)]
      have hcx : min (10 * (px / 10) + 5) (w - 1) < w := by omega
      have hMh : 10 * M < h := by omega
      have hrs : rowSpecColor w h (10 * M)
          (forLoop M (fun ky d2 =>
            forLoop (ceilDiv w 10) (fun kx d3 =>
              fillBlock w h (10 * kx) (10 * ky)
                (blockColor w h (10 * kx) (10 * ky) d3) d3) d2) d) px py =
          eightBitSpecColor w h d px py := by
        have h0 := ih d (min (10 * (px / 10) + 5) (w - 1))
          (min (10 * M + 5) (h - 1)) 0 hcx (by omega)
        have h1c := ih d (min (10 * (px / 10) + 5) (w - 1))
          (min (10 * M + 5) (h - 1)) 1 hcx (by omega)
        have h2c := ih d (min (10 * (px / 10) + 5) (w - 1))
          (min (10 * M + 5) (h - 1)) 2 hcx (by omega)
        rw [if_neg (by rintro ⟨hlt, _⟩; omega)] at h0 h1c h2c
        rw [Nat.add_zero] at h0
        have hbc := blockColor_congr w h (10 * (px / 10)) (10 * M) _ d h0 h1c h2c
        unfold rowSpecColor eightBitSpecColor
        simp only
        rw [hbc]
        have hydiv : 10 * (py / 10) = 10 * M := by omega
        rw [hydiv]
        exact if_congr (by omega) rfl rfl
      rw [hrs]
    · rw [if_neg (by rintro ⟨ha, hb, hc, _⟩; exact hhit ⟨ha, hb, hc⟩)]
      rw [ih d px py ch hpx hch]
      refine if_congr ?_ rfl rfl
      constructor
      · rintro ⟨h1, h2⟩
        exact ⟨by omega, h2⟩
      · rintro ⟨h1, h2⟩
        refine ⟨?_, h2⟩
        rcases Nat.lt_or_ge py (10 * M) with hlt | hge
        · exact hlt
        · exact absurd ⟨hge, by omega, h2⟩ hhit

lemma eightBit_char (img : Frame) (px py ch : Nat)
    (hpx : px < img.width) (hpy : py < img.height) (hch : ch < 3) :
    (eightBit img).data ((py * img.width + px) * 4 + ch) =
      chSel ch (eightBitSpecColor img.width img.height img.data px py) := by
  have hmain := eightBitRows_char img.width img.height (ceilDiv img.height 10)
    img.data px py ch hpx hch
  have hMy : py < 10 * ceilDiv img.height 10 := by
    unfold ceilDiv
    omega
  rw [if_pos ⟨hMy, hpy⟩] at hmain
  exact hmain

/-- C2: the 8-bit transform partitions the frame into 10 x 10 blocks clipped
to the frame bounds; each in-bounds pixel receives the colour described by
eightBitSpecColor: the palette colour nearest (by Euclidean RGB distance,
ties broken by the first palette entry, as the second conjunct states) to the
single pixel sampled at the centre of its block, darkened by the fixed
factor 0.15 along the one-pixel top and left block edges. -/
theorem eightBit_center_palette_blocks (img : Frame) (px py : Nat)
    (hpx : px < img.width) (hpy : py < img.height) :
    (((eightBit img).data ((py * img.width + px) * 4),
      (eightBit img).data ((py * img.width + px) * 4 + 1),
      (eightBit img).data ((py * img.width + px) * 4 + 2)) =
      eightBitSpecColor img.width img.height img.data px py) ∧
    (∀ r g b : Nat, ∃ l₁ l₂, PALETTE = l₁ ++ closestColor r g b :: l₂ ∧
      (∀ c ∈ l₁, dist2 r g b (closestColor r g b) < dist2 r g b c) ∧
      (∀ c ∈ PALETTE, dist2 r g b (closestColor r g b) ≤ dist2 r g b c)) := by
  constructor
  · have h0 := eightBit_char img px py 0 hpx hpy (by omega)
    have h1 := eightBit_char img px py 1 hpx hpy (by omega)
    have h2 := eightBit_char img px py 2 hpx hpy (by omega)
    rw [Nat.add_zero] at h0
    rw [h0, h1, h2]
    rfl
  · intro r g b
    exact closestColor_decomp r g b

/-- C2 witness: the characterization applied to a concrete 2 x 2 frame at the
interior pixel (1, 1), whose block centre is that pixel itself; the nearest
palette colour to (245, 245, 245) is the off-white (240, 240, 240) and the
pixel is not on the darkened border. -/
theorem eightBit_center_palette_blocks_witness :
    (((eightBit (frame2x2 [10, 20, 30, 255, 40, 50, 60, 255,
        70, 80, 90, 255, 245, 245, 245, 255])).data ((1 * 2 + 1) * 4),
      (eightBit (frame2x2 [10, 20, 30, 255, 40, 50, 60, 255,
        70, 80, 90, 255, 245, 245, 245, 255])).data ((1 * 2 + 1) * 4 + 1),
      (eightBit (frame2x2 [10, 20, 30, 255, 40, 50, 60, 255,
        70, 80, 90, 255, 245, 245, 245, 255])).data ((1 * 2 + 1) * 4 + 2)) =
      eightBitSpecColor 2 2 (frame2x2 [10, 20, 30, 255, 40, 50, 60, 255,
        70, 80, 90, 255, 245, 245, 245, 255]).data 1 1) ∧
    eightBitSpecColor 2 2 (frame2x2 [10, 20, 30, 255, 40, 50, 60, 255,
      70, 80, 90, 255, 245, 245, 245, 255]).data 1 1 = (240, 240, 240) :=
  ⟨(eightBit_center_palette_blocks (frame2x2 [10, 20, 30, 255, 40, 50, 60, 255,
      70, 80, 90, 255, 245, 245, 245, 255]) 1 1 (by decide) (by decide)).1,
    by with_unfolding_all rfl⟩

/-- C10: on a 1 x 1 frame the single pixel is the centre sample of its own
block and lies on the block's top-left border, so the output pixel is the
darkened seam colour: each channel is toByte(0.15 times the corresponding
channel of the nearest palette colour), and the result is never the palette
colour itself. -/
theorem eightBit_single_pixel_darkened (img : Frame)
    (hw : img.width = 1) (hh : img.height = 1) :
    (((eightBit img).data 0, (eightBit img).data 1, (eightBit img).data 2) =
      darken (closestColor (img.data 0) (img.data 1) (img.data 2))) ∧
    ((eightBit img).data 0, (eightBit img).data 1, (eightBit img).data 2) ≠
      closestColor (img.data 0) (img.data 1) (img.data 2) := by
  have h0 := eightBit_char img 0 0 0 (by omega) (by omega) (by omega)
  have h1 := eightBit_char img 0 0 1 (by omega) (by omega) (by omega)
  have h2 := eightBit_char img 0 0 2 (by omega) (by omega) (by omega)
  rw [hw] at h0 h1 h2
  rw [hh] at h0 h1 h2
  norm_num at h0 h1 h2
  have hspec : eightBitSpecColor 1 1 img.data 0 0 =
      darken (closestColor (img.data 0) (img.data 1) (img.data 2)) := rfl
  rw [hspec] at h0 h1 h2
  have hmain : ((eightBit img).data 0, (eightBit img).data 1, (eightBit img).data 2) =
      darken (closestColor (img.data 0) (img.data 1) (img.data 2)) := by
    rw [h0, h1, h2]
    rfl
  refine ⟨hmain, ?_⟩
  rw [hmain]
  have hmem := closestColor_mem (img.data 0) (img.data 1) (img.data 2)
  have hall : ∀ c ∈ PALETTE, darken c ≠ c := by with_unfolding_all decide
  exact hall _ hmem

/-- C10 witness: a black 1 x 1 frame; the nearest palette colour to black is
deep amethyst (36, 0, 70) and the single output pixel is its darkened seam
value (5, 0, 10), not the palette colour. -/
theorem eightBit_single_pixel_darkened_witness :
    (((eightBit (frame1x1 0 0 0 255)).data 0, (eightBit (frame1x1 0 0 0 255)).data 1,
      (eightBit (frame1x1 0 0 0 255)).data 2) =
      darken (closestColor ((frame1x1 0 0 0 255).data 0) ((frame1x1 0 0 0 255).data 1)
        ((frame1x1 0 0 0 255).data 2))) ∧
    darken (closestColor 0 0 0) = (5, 0, 10) ∧
    closestColor 0 0 0 = (36, 0, 70) :=
  ⟨(eightBit_single_pixel_darkened (frame1x1 0 0 0 255) rfl rfl).1,
    by with_unfolding_all rfl, by with_unfolding_all rfl⟩
